import Mathlib

/-!
Shallow embedding of the MarkFlow block-based Markdown editor core
(src/App.tsx and the block type declarations).

The document model is an ordered list of typed blocks; the operations
`addBlock`, `updateBlock`, `removeBlock`, `moveBlock` and the serializer
`generateMarkdownString` are translated directly from the source.
-/

namespace MarkFlow

/-- The `BlockType` union from the types file:
`h1 | h2 | h3 | paragraph | image | code | blockquote | list-ul | list-ol | divider`. -/
inductive BlockType where
  | h1
  | h2
  | h3
  | paragraph
  | image
  | code
  | blockquote
  | listUl
  | listOl
  | divider
deriving DecidableEq, Inhabited, Repr

/-- The optional `metadata` record of `BlockData`:
`language?: string; alt?: string; items?: string[]`. -/
structure Metadata where
  language : Option String := none
  alt : Option String := none
  items : Option (List String) := none
deriving DecidableEq, Inhabited, Repr

/-- The `BlockData` interface: `id: string; type: BlockType; content: string;
metadata?: {...}`. -/
structure BlockData where
  id : String
  type : BlockType
  content : String
  metadata : Option Metadata := none
deriving DecidableEq, Inhabited, Repr

/-- A document is the ordered block list held in the `blocks` React state. -/
abbrev Document := List BlockData

/-- The up/down direction argument of `moveBlock`. -/
inductive Direction where
  | up
  | down
deriving DecidableEq, Repr

/-- A `Partial<BlockData>` argument to `updateBlock`: each field is either
absent (`none`) or supplies a value.  For `metadata` the supplied value is
itself optional, mirroring the optional field of `BlockData`. -/
structure PartialBlockData where
  id : Option String := none
  type : Option BlockType := none
  content : Option String := none
  metadata : Option (Option Metadata) := none
deriving DecidableEq, Repr

/-- The object spread `{ ...b, ...updates }`: every field supplied by
`updates` overrides the corresponding field of `b`. -/
def spreadMerge (b : BlockData) (updates : PartialBlockData) : BlockData :=
  { id := updates.id.getD b.id
    type := updates.type.getD b.type
    content := updates.content.getD b.content
    metadata := updates.metadata.getD b.metadata }

/-- JavaScript string defaulting `x || d` where `x : string | undefined`:
the default is taken when `x` is `undefined` or the (falsy) empty string. -/
def jsOrString (x : Option String) (d : String) : String :=
  match x with
  | none => d
  | some s => if s = "" then d else s

/-- `type.includes("list")` evaluated over the ten literal strings of the
`BlockType` union: only `"list-ul"` and `"list-ol"` contain `"list"`. -/
def typeIncludesList : BlockType → Bool
  | BlockType.listUl => true
  | BlockType.listOl => true
  | _ => false

/-- `addBlock` from src/App.tsx.  The `crypto.randomUUID()` call is
abstracted into the `newId` argument (the spec notes id generation is an
injectable capability); everything else is the source literally: the new
block is appended with empty content and metadata holding the one-element
items list `[""]` when `type.includes("list")`, else `{}` (a metadata
record with no fields). -/
def addBlock (blocks : Document) (type : BlockType) (newId : String) : Document :=
  let newBlock : BlockData :=
    { id := newId
      type := type
      content := ""
      metadata := some (if typeIncludesList type
                        then { items := some [""] }
                        else {}) }
  blocks ++ [newBlock]

/-- `updateBlock` from src/App.tsx:
`prev.map(b => b.id === id ? { ...b, ...updates } : b)`. -/
def updateBlock (blocks : Document) (id : String) (updates : PartialBlockData) : Document :=
  blocks.map fun b => if b.id = id then spreadMerge b updates else b

/-- `removeBlock` from src/App.tsx: `prev.filter(b => b.id !== id)`. -/
def removeBlock (blocks : Document) (id : String) : Document :=
  blocks.filter fun b => b.id ≠ id

/-- JavaScript `Array.prototype.findIndex`, with the `-1` failure value
rendered as `none` (the source only compares the result against `-1`). -/
def findIndexJs (p : α → Bool) : List α → Option Nat
  | [] => none
  | x :: xs => if p x then some 0 else (findIndexJs p xs).map (· + 1)

/-- The destructuring swap
`[a[i], a[j]] = [a[j], a[i]]`: both right-hand sides are read from the
original array before either write. -/
def swapAt [Inhabited α] (l : List α) (i j : Nat) : List α :=
  (l.set i (l.getD j default)).set j (l.getD i default)

/-- `moveBlock` from src/App.tsx: locate the block by id, return the list
unchanged when the id is absent or the move would cross a boundary,
otherwise swap the block with its neighbor in the given direction. -/
def moveBlock (blocks : Document) (id : String) (direction : Direction) : Document :=
  match findIndexJs (fun b => b.id == id) blocks with
  | none => blocks
  | some index =>
    if direction = Direction.up ∧ index = 0 then blocks
    else if direction = Direction.down ∧ index = blocks.length - 1 then blocks
    else
      let swapIndex := match direction with
        | Direction.up => index - 1
        | Direction.down => index + 1
      swapAt blocks index swapIndex

/-- JavaScript `Array.prototype.join(sep)`. -/
def joinSep (sep : String) : List String → String
  | [] => ""
  | [x] => x
  | x :: y :: xs => x ++ sep ++ joinSep sep (y :: xs)

/-- `block.metadata?.items || []` (a present empty array is truthy, so the
default is taken exactly when `metadata` or `items` is absent). -/
def metaItems (b : BlockData) : List String :=
  (b.metadata.bind Metadata.items).getD []

/-- The per-block `switch` of `generateMarkdownString`. -/
def renderBlock (block : BlockData) : String :=
  match block.type with
  | BlockType.h1 => "# " ++ block.content
  | BlockType.h2 => "## " ++ block.content
  | BlockType.h3 => "### " ++ block.content
  | BlockType.paragraph => block.content
  | BlockType.blockquote => "> " ++ block.content
  | BlockType.code =>
      "```" ++ jsOrString (block.metadata.bind Metadata.language) "" ++ "\n"
        ++ block.content ++ "\n```"
  | BlockType.image =>
      "![" ++ jsOrString (block.metadata.bind Metadata.alt) "image" ++ "]("
        ++ block.content ++ ")"
  | BlockType.listUl =>
      joinSep "\n" ((metaItems block).map fun item => "- " ++ item)
  | BlockType.listOl =>
      joinSep "\n" ((metaItems block).enum.map fun p => toString (p.1 + 1) ++ ". " ++ p.2)
  | BlockType.divider => "---"

/-- `generateMarkdownString` from src/App.tsx: map each block through the
per-kind `switch` and join the results with the two-newline separator. -/
def generateMarkdownString (currentBlocks : Document) : String :=
  joinSep "\n\n" (currentBlocks.map renderBlock)

/-! ### Helper lemmas -/

theorem joinSep_cons_of_ne_nil (sep x : String) (xs : List String) (h : xs ≠ []) :
    joinSep sep (x :: xs) = x ++ sep ++ joinSep sep xs := by
  cases xs with
  | nil => exact absurd rfl h
  | cons y ys => rfl

theorem findIndexJs_lt_length {p : α → Bool} :
    ∀ {l : List α} {n : Nat}, findIndexJs p l = some n → n < l.length := by
  intro l
  induction l with
  | nil => intro n h; simp [findIndexJs] at h
  | cons x xs ih =>
    intro n h
    simp only [findIndexJs] at h
    split at h
    · cases h; simp
    · rcases Option.map_eq_some'.1 h with ⟨m, hm, rfl⟩
      have := ih hm
      simp; omega

theorem findIndexJs_eq_none_iff {p : α → Bool} {l : List α} :
    findIndexJs p l = none ↔ ∀ x ∈ l, p x = false := by
  induction l with
  | nil => simp [findIndexJs]
  | cons x xs ih =>
    simp only [findIndexJs]
    by_cases hx : p x <;> simp [hx, ih]

theorem swapAt_length [Inhabited α] (l : List α) (i j : Nat) :
    (swapAt l i j).length = l.length := by
  simp [swapAt]

theorem getElem?_swapAt_fst [Inhabited α] (l : List α) (i j : Nat)
    (hi : i < l.length) (hj : j < l.length) (hij : i ≠ j) :
    (swapAt l i j)[i]? = l[j]? := by
  unfold swapAt
  rw [List.getElem?_set_ne (Ne.symm hij), List.getElem?_set_self hi,
    List.getD_eq_getElem?_getD, List.getElem?_eq_getElem hj]
  simp

theorem getElem?_swapAt_snd [Inhabited α] (l : List α) (i j : Nat)
    (hi : i < l.length) (hj : j < l.length) :
    (swapAt l i j)[j]? = l[i]? := by
  unfold swapAt
  rw [List.getElem?_set_self (by simpa using hj),
    List.getD_eq_getElem?_getD, List.getElem?_eq_getElem hi]
  simp

theorem getElem?_swapAt_other [Inhabited α] (l : List α) (i j n : Nat)
    (hni : n ≠ i) (hnj : n ≠ j) :
    (swapAt l i j)[n]? = l[n]? := by
  unfold swapAt
  rw [List.getElem?_set_ne (Ne.symm hnj), List.getElem?_set_ne (Ne.symm hni)]

theorem findIndexJs_cons (p : α → Bool) (x : α) (xs : List α) :
    findIndexJs p (x :: xs)
      = if p x then some 0 else (findIndexJs p xs).map (· + 1) := rfl

theorem findIndexJs_cons_eq_zero (p : α → Bool) (x : α) (xs : List α)
    (h : findIndexJs p (x :: xs) = some 0) : p x = true := by
  by_cases hx : p x
  · exact hx
  · simp only [findIndexJs, hx, if_false] at h
    rcases Option.map_eq_some'.1 h with ⟨m, _, hm⟩
    omega

theorem swapAt_cons [Inhabited α] (x : α) (xs : List α) (i j : Nat) :
    swapAt (x :: xs) (i + 1) (j + 1) = x :: swapAt xs i j := by
  simp [swapAt]

theorem moveBlock_cons_down (x : BlockData) (xs : Document) (i : String)
    (hx : (x.id == i) = false) :
    moveBlock (x :: xs) i Direction.down = x :: moveBlock xs i Direction.down := by
  have hcons : findIndexJs (fun b => b.id == i) (x :: xs)
      = (findIndexJs (fun b => b.id == i) xs).map (· + 1) := by
    simp [findIndexJs, hx]
  cases hfs : findIndexJs (fun b => b.id == i) xs with
  | none => simp [moveBlock, hcons, hfs]
  | some k =>
    have hk := findIndexJs_lt_length hfs
    rcases eq_or_ne k (xs.length - 1) with hke | hke
    · subst hke
      have h1 : xs.length - 1 + 1 = xs.length := by omega
      simp [moveBlock, hcons, hfs, h1]
    · have h1 : ¬ (k + 1 = xs.length) := by omega
      simp [moveBlock, hcons, hfs, h1, hke, swapAt_cons]

theorem moveBlock_cons_up (x : BlockData) (xs : Document) (i : String)
    (hx : (x.id == i) = false)
    (h0 : findIndexJs (fun b => b.id == i) xs ≠ some 0) :
    moveBlock (x :: xs) i Direction.up = x :: moveBlock xs i Direction.up := by
  have hcons : findIndexJs (fun b => b.id == i) (x :: xs)
      = (findIndexJs (fun b => b.id == i) xs).map (· + 1) := by
    simp [findIndexJs, hx]
  cases hfs : findIndexJs (fun b => b.id == i) xs with
  | none => simp [moveBlock, hcons, hfs]
  | some k =>
    cases k with
    | zero => exact absurd hfs h0
    | succ m => simp [moveBlock, hcons, hfs, swapAt_cons]

theorem updateBlock_of_absent (d : Document) (i : String) (u : PartialBlockData)
    (h : ∀ b ∈ d, b.id ≠ i) : updateBlock d i u = d := by
  induction d with
  | nil => rfl
  | cons b bs ih =>
    have hb : ¬ (b.id = i) := h b (List.mem_cons_self b bs)
    have hrest := ih fun x hx => h x (List.mem_cons_of_mem b hx)
    simp only [updateBlock, List.map_cons, if_neg hb]
    rw [List.cons.injEq]
    exact ⟨rfl, hrest⟩

theorem removeBlock_of_absent (d : Document) (i : String)
    (h : ∀ b ∈ d, b.id ≠ i) : removeBlock d i = d := by
  rw [removeBlock, List.filter_eq_self]
  intro b hb
  simpa using h b hb

/-! ### Claims -/

/-- C1, counterexample: `updateBlock` does not protect `kind` and `id`.
Updating the single block with id `"1"` and kind `h1` by a partial record
that supplies `id := "2"` and `type := paragraph` changes both fields, so
the claim that the resulting kind and id are identical to the original
ones is false. -/
theorem update_overrides_kind_id_cex :
    ((updateBlock [⟨"1", BlockType.h1, "t", none⟩] "1"
        ⟨some "2", some BlockType.paragraph, none, none⟩).headD default).type
      ≠ BlockType.h1
    ∧ ((updateBlock [⟨"1", BlockType.h1, "t", none⟩] "1"
        ⟨some "2", some BlockType.paragraph, none, none⟩).headD default).id
      ≠ "1" := by
  constructor <;> decide

/-- C1, amended: `updateBlock` merges the supplied partial fields over the
matching block, every supplied field (including kind and id) overriding
the original; when the partial record does not supply `id` or `type`,
every block of the result keeps the kind and id of its original. -/
theorem update_preserves_kind_id_when_not_supplied
    (d : Document) (i : String) (u : PartialBlockData)
    (hid : u.id = none) (hty : u.type = none) :
    List.Forall₂ (fun b b2 : BlockData => b2.id = b.id ∧ b2.type = b.type)
      d (updateBlock d i u) := by
  induction d with
  | nil => exact List.Forall₂.nil
  | cons b bs ih =>
    simp only [updateBlock, List.map_cons]
    refine List.Forall₂.cons ?_ ih
    by_cases h : b.id = i <;> simp [spreadMerge, h, hid, hty]

theorem update_preserves_kind_id_when_not_supplied_witness :
    List.Forall₂ (fun b b2 : BlockData => b2.id = b.id ∧ b2.type = b.type)
      [⟨"1", BlockType.h1, "t", none⟩]
      (updateBlock [⟨"1", BlockType.h1, "t", none⟩] "1"
        ⟨none, none, some "new", none⟩) :=
  update_preserves_kind_id_when_not_supplied _ _ _ rfl rfl

/-- C2: serialization maps each block to its per-kind rendering and joins
the renderings in order with one blank line (two newlines) between
consecutive blocks; the empty document serializes to the empty string,
and the heading/paragraph pair serializes to the expected string. -/
theorem serialize_joins_renderings :
    generateMarkdownString [] = ""
    ∧ (∀ b : BlockData, generateMarkdownString [b] = renderBlock b)
    ∧ (∀ (b : BlockData) (d : Document), d ≠ [] →
        generateMarkdownString (b :: d)
          = renderBlock b ++ "\n\n" ++ generateMarkdownString d)
    ∧ generateMarkdownString
        [⟨"1", BlockType.h1, "T", none⟩, ⟨"2", BlockType.paragraph, "body", none⟩]
      = "# T\n\nbody" := by
  refine ⟨rfl, fun b => rfl, ?_, by decide⟩
  intro b d hd
  unfold generateMarkdownString
  rw [List.map_cons]
  exact joinSep_cons_of_ne_nil _ _ _ (by simpa using hd)

theorem serialize_joins_renderings_witness :
    generateMarkdownString
        [⟨"1", BlockType.h1, "T", none⟩, ⟨"2", BlockType.paragraph, "body", none⟩]
      = renderBlock ⟨"1", BlockType.h1, "T", none⟩ ++ "\n\n"
        ++ generateMarkdownString [⟨"2", BlockType.paragraph, "body", none⟩] :=
  serialize_joins_renderings.2.2.1 _ [⟨"2", BlockType.paragraph, "body", none⟩] (by decide)

/-- C3: inserting a block of kind `k` appends exactly one block, leaves the
prior blocks unchanged and in order as a prefix, and the appended block
has empty content and metadata holding the one-element items list exactly
when `k` is one of the two list kinds, else empty metadata. -/
theorem insert_appends_default_block (d : Document) (k : BlockType) (newId : String) :
    (addBlock d k newId).length = d.length + 1
    ∧ (addBlock d k newId).take d.length = d
    ∧ (addBlock d k newId).getLast?
      = some { id := newId, type := k, content := ""
               metadata := some { language := none, alt := none
                                  items := if k = BlockType.listUl ∨ k = BlockType.listOl
                                           then some [""] else none } } := by
  refine ⟨by simp [addBlock], ?_, ?_⟩
  · unfold addBlock
    exact List.take_left d _
  · unfold addBlock
    rw [List.getLast?_concat]
    cases k <;> rfl

/-- C4: on an id absent from the document, `updateBlock` and `removeBlock`
return the document unchanged; both are total functions. -/
theorem update_remove_unknown_id_noop (d : Document) (i : String)
    (h : ∀ b ∈ d, b.id ≠ i) (u : PartialBlockData) :
    updateBlock d i u = d ∧ removeBlock d i = d :=
  ⟨updateBlock_of_absent d i u h, removeBlock_of_absent d i h⟩

theorem update_remove_unknown_id_noop_witness :
    updateBlock [⟨"1", BlockType.h1, "t", none⟩] "2" ⟨none, none, some "x", none⟩
        = [⟨"1", BlockType.h1, "t", none⟩]
    ∧ removeBlock [⟨"1", BlockType.h1, "t", none⟩] "2"
        = [⟨"1", BlockType.h1, "t", none⟩] :=
  update_remove_unknown_id_noop _ "2" (by decide) _

/-- C5: `moveBlock` returns the document unchanged when the id is absent,
when the identified block is first and the direction is up, and when it is
last and the direction is down; otherwise it swaps the identified block
with its immediate neighbor in the given direction, every other position
being unchanged. -/
theorem move_edge_and_swap_spec (d : Document) (i : String) :
    ((∀ b ∈ d, b.id ≠ i) → ∀ dir, moveBlock d i dir = d)
    ∧ (findIndexJs (fun b => b.id == i) d = some 0 → moveBlock d i Direction.up = d)
    ∧ (findIndexJs (fun b => b.id == i) d = some (d.length - 1) →
        moveBlock d i Direction.down = d)
    ∧ (∀ k, findIndexJs (fun b => b.id == i) d = some (k + 1) →
        (moveBlock d i Direction.up).length = d.length
        ∧ (moveBlock d i Direction.up)[k]? = d[k + 1]?
        ∧ (moveBlock d i Direction.up)[k + 1]? = d[k]?
        ∧ ∀ j, j ≠ k → j ≠ k + 1 → (moveBlock d i Direction.up)[j]? = d[j]?)
    ∧ (∀ k, findIndexJs (fun b => b.id == i) d = some k → k ≠ d.length - 1 →
        (moveBlock d i Direction.down).length = d.length
        ∧ (moveBlock d i Direction.down)[k]? = d[k + 1]?
        ∧ (moveBlock d i Direction.down)[k + 1]? = d[k]?
        ∧ ∀ j, j ≠ k → j ≠ k + 1 → (moveBlock d i Direction.down)[j]? = d[j]?) := by
  refine ⟨?_, ?_, ?_, ?_, ?_⟩
  · intro h dir
    have hnone : findIndexJs (fun b => b.id == i) d = none :=
      findIndexJs_eq_none_iff.2 fun b hb => by simpa using h b hb
    simp [moveBlock, hnone]
  · intro h0
    simp [moveBlock, h0]
  · intro hlast
    simp [moveBlock, hlast]
  · intro k hk
    have hlen := findIndexJs_lt_length hk
    have hred : moveBlock d i Direction.up = swapAt d (k + 1) k := by
      simp [moveBlock, hk]
    rw [hred]
    refine ⟨swapAt_length d _ _, ?_, ?_, ?_⟩
    · exact getElem?_swapAt_snd d (k + 1) k hlen (by omega)
    · exact getElem?_swapAt_fst d (k + 1) k hlen (by omega) (by omega)
    · intro j hj1 hj2
      exact getElem?_swapAt_other d (k + 1) k j hj2 hj1
  · intro k hk hne
    have hlen := findIndexJs_lt_length hk
    have hlen1 : k + 1 < d.length := by omega
    have hred : moveBlock d i Direction.down = swapAt d k (k + 1) := by
      simp [moveBlock, hk, hne]
    rw [hred]
    refine ⟨swapAt_length d _ _, ?_, ?_, ?_⟩
    · exact getElem?_swapAt_fst d k (k + 1) (by omega) hlen1 (by omega)
    · exact getElem?_swapAt_snd d k (k + 1) (by omega) hlen1
    · intro j hj1 hj2
      exact getElem?_swapAt_other d k (k + 1) j hj1 hj2

theorem move_edge_and_swap_spec_witness :
    moveBlock [⟨"1", BlockType.h1, "a", none⟩, ⟨"2", BlockType.h2, "b", none⟩,
        ⟨"3", BlockType.h3, "c", none⟩] "9" Direction.up
      = [⟨"1", BlockType.h1, "a", none⟩, ⟨"2", BlockType.h2, "b", none⟩,
        ⟨"3", BlockType.h3, "c", none⟩]
    ∧ moveBlock [⟨"1", BlockType.h1, "a", none⟩, ⟨"2", BlockType.h2, "b", none⟩,
        ⟨"3", BlockType.h3, "c", none⟩] "1" Direction.up
      = [⟨"1", BlockType.h1, "a", none⟩, ⟨"2", BlockType.h2, "b", none⟩,
        ⟨"3", BlockType.h3, "c", none⟩]
    ∧ (moveBlock [⟨"1", BlockType.h1, "a", none⟩, ⟨"2", BlockType.h2, "b", none⟩,
        ⟨"3", BlockType.h3, "c", none⟩] "2" Direction.up)[0]?
      = [⟨"1", BlockType.h1, "a", none⟩, ⟨"2", BlockType.h2, "b", none⟩,
        (⟨"3", BlockType.h3, "c", none⟩ : BlockData)][1]? :=
  ⟨(move_edge_and_swap_spec _ "9").1 (by decide) Direction.up,
   (move_edge_and_swap_spec _ "1").2.1 (by decide),
   ((move_edge_and_swap_spec _ "2").2.2.2.1 0 (by decide)).2.1⟩

/-- C6: moving a block up and then down restores the original document;
the hypothesis that the identified block is not already first is expressed
as the located index not being zero (it also covers an absent id, for
which both moves degrade to no-ops). -/
theorem move_up_down_roundtrip (d : Document) (i : String)
    (h : findIndexJs (fun b => b.id == i) d ≠ some 0) :
    moveBlock (moveBlock d i Direction.up) i Direction.down = d := by
  induction d with
  | nil => rfl
  | cons x xs ih =>
    by_cases hx : (x.id == i) = true
    · exact absurd (by simp [findIndexJs, hx]) h
    · have hx' : (x.id == i) = false := by simpa using hx
      cases hfs : findIndexJs (fun b => b.id == i) xs with
      | none =>
        have hnone : findIndexJs (fun b => b.id == i) (x :: xs) = none := by
          simp [findIndexJs, hx', hfs]
        simp [moveBlock, hnone]
      | some k =>
        cases k with
        | zero =>
          cases xs with
          | nil => simp [findIndexJs] at hfs
          | cons y ys =>
            have hy : (y.id == i) = true :=
              findIndexJs_cons_eq_zero (fun b => b.id == i) y ys hfs
            have h1 : findIndexJs (fun b => b.id == i) (x :: y :: ys) = some 1 := by
              simp [findIndexJs, hx', hy]
            have hup : moveBlock (x :: y :: ys) i Direction.up = y :: x :: ys := by
              simp [moveBlock, h1, swapAt]
            rw [hup]
            have h0 : findIndexJs (fun b => b.id == i) (y :: x :: ys) = some 0 := by
              simp [findIndexJs, hy]
            simp [moveBlock, h0, swapAt]
        | succ m =>
          have h0 : findIndexJs (fun b => b.id == i) xs ≠ some 0 := by simp [hfs]
          rw [moveBlock_cons_up x xs i hx' h0, moveBlock_cons_down x _ i hx', ih h0]

theorem move_up_down_roundtrip_witness :
    moveBlock (moveBlock [⟨"1", BlockType.h1, "a", none⟩, ⟨"2", BlockType.h2, "b", none⟩,
        ⟨"3", BlockType.h3, "c", none⟩] "3" Direction.up) "3" Direction.down
      = [⟨"1", BlockType.h1, "a", none⟩, ⟨"2", BlockType.h2, "b", none⟩,
        ⟨"3", BlockType.h3, "c", none⟩] :=
  move_up_down_roundtrip _ "3" (by decide)

/-- C7: a code block renders as a fenced block — the opening fence,
the language tag (empty when the metadata does not carry one), a newline,
the content, a newline and the closing fence — and the concrete example
from the spec serializes bit for bit. -/
theorem code_block_render_spec :
    (∀ (i c : String) (m : Option Metadata),
      renderBlock ⟨i, BlockType.code, c, m⟩
        = "```" ++ ((m.bind Metadata.language).getD "") ++ "\n" ++ c ++ "\n```")
    ∧ generateMarkdownString
        [⟨"1", BlockType.code, "print(1)", some ⟨some "py", none, none⟩⟩]
      = "```py\nprint(1)\n```" := by
  constructor
  · intro i c m
    rcases m with _ | ⟨lang, alt, items⟩
    · rfl
    · rcases lang with _ | l
      · rfl
      · by_cases hl : l = "" <;> simp [renderBlock, jsOrString, hl]
  · decide

/-- C8, counterexample: an image block whose alt metadata is present but
equal to the empty string renders with the literal fallback `image`, not
with the supplied (empty) alt text, so the claim that the alt metadata is
used whenever it is set is false. -/
theorem image_alt_empty_cex :
    renderBlock ⟨"1", BlockType.image, "u", some ⟨none, some "", none⟩⟩ = "![image](u)"
    ∧ renderBlock ⟨"1", BlockType.image, "u", some ⟨none, some "", none⟩⟩
      ≠ "![" ++ (((some (⟨none, some "", none⟩ : Metadata)).bind Metadata.alt).getD "image")
          ++ "](" ++ "u" ++ ")" := by
  constructor <;> decide

/-- C8, amended: an image block renders as `![alt](content)` where alt is
the alt metadata when it is set and nonempty, and the literal `image`
when it is unset or empty. -/
theorem image_render_spec (i c : String) (m : Option Metadata) :
    renderBlock ⟨i, BlockType.image, c, m⟩
      = "![" ++ (match m.bind Metadata.alt with
                 | some a => if a = "" then "image" else a
                 | none => "image") ++ "](" ++ c ++ ")" := by
  rcases m with _ | ⟨lang, alt, items⟩
  · rfl
  · rcases alt with _ | a
    · rfl
    · by_cases ha : a = ""
      · subst ha; rfl
      · simp [renderBlock, jsOrString, ha]

/-- C9: a bullet list renders each item prefixed by a dash and a space and
a numbered list renders each item prefixed by its one-based index, a dot
and a space, the rendered items joined by single newlines; the two
concrete examples from the spec serialize bit for bit. -/
theorem list_render_spec :
    (∀ (i c : String) (lang alt : Option String) (items : List String),
      renderBlock ⟨i, BlockType.listUl, c, some ⟨lang, alt, some items⟩⟩
        = joinSep "\n" (items.map fun item => "- " ++ item))
    ∧ (∀ (i c : String) (lang alt : Option String) (items : List String),
      renderBlock ⟨i, BlockType.listOl, c, some ⟨lang, alt, some items⟩⟩
        = joinSep "\n" (((List.range items.length).zip items).map
            fun p => toString (p.1 + 1) ++ ". " ++ p.2))
    ∧ renderBlock ⟨"1", BlockType.listUl, "", some ⟨none, none, some ["a", "b"]⟩⟩
        = "- a\n- b"
    ∧ renderBlock ⟨"1", BlockType.listOl, "", some ⟨none, none, some ["x", "y"]⟩⟩
        = "1. x\n2. y" := by
  refine ⟨fun _ _ _ _ _ => rfl, ?_, by decide, by decide⟩
  intro i c lang alt items
  show joinSep "\n" ((metaItems _).enum.map _) = _
  rw [show metaItems ⟨i, BlockType.listOl, c, some ⟨lang, alt, some items⟩⟩
        = items from rfl,
    List.enum_eq_zip_range]

theorem renderBlock_ext (a b : BlockData) (ht : a.type = b.type)
    (hc : a.content = b.content) (hm : a.metadata = b.metadata) :
    renderBlock a = renderBlock b := by
  rcases a with ⟨ida, ta, ca, ma⟩
  rcases b with ⟨idb, tb, cb, mb⟩
  dsimp only at ht hc hm
  subst ht; subst hc; subst hm
  cases ta <;> rfl

/-- C10: serialization never reads block ids — two documents that agree
pairwise on kind, content and metadata (ids arbitrary) serialize to the
same string. -/
theorem serialize_ignores_ids (d1 d2 : Document)
    (h : List.Forall₂ (fun a b : BlockData =>
        a.type = b.type ∧ a.content = b.content ∧ a.metadata = b.metadata) d1 d2) :
    generateMarkdownString d1 = generateMarkdownString d2 := by
  unfold generateMarkdownString
  congr 1
  induction h with
  | nil => rfl
  | cons hab habs ih =>
    simp only [List.map_cons, ih]
    rw [renderBlock_ext _ _ hab.1 hab.2.1 hab.2.2]

theorem serialize_ignores_ids_witness :
    generateMarkdownString [⟨"a", BlockType.h1, "T", none⟩]
      = generateMarkdownString [⟨"zzz", BlockType.h1, "T", none⟩] :=
  serialize_ignores_ids _ _ (List.Forall₂.cons ⟨rfl, rfl, rfl⟩ List.Forall₂.nil)

end MarkFlow

